import Mathlib

/-!
# Verification of the MEDS tabular AutoML core

A shallow embedding of the two source files of the repository:

* `src/MEDS_tabular_automl/utils.py` — flat-feature column parsing and typing
  (`parse_flat_feature_column`, `get_flat_col_dtype`), schema normalization
  (`add_missing_cols`), and feature-column enumeration
  (`get_static_feature_cols`).
* `xgboost_sweep.py` — the `Iterator` class: inclusion-set column selection and
  as-of join strategy in `_load_shard`, and the `next` / `reset` /
  `collect_in_memory` protocol.

Column names are modelled as `List Char` (written via `String.data` on
literals) so that every operation is an executable structural recursion.
Python's `str.split`, `"/".join`, `sorted`, `str.endswith`, substring testing
and lexicographic comparison are modelled by `splitOnChar`, `intercalateChar`,
`List.insertionSort`, `endsWithStr`, `containsChar` and `strLe` below.
Polars dataframes are modelled as lists of named, typed columns of values
(`PlDataFrame`); fallible operations return `Except String`.
-/

/-- Column names, modelled as lists of characters. -/
abbrev Str := List Char

instance {ε α : Type} [DecidableEq ε] [DecidableEq α] : DecidableEq (Except ε α) := fun x y =>
  match x, y with
  | .ok a, .ok b => decidable_of_iff (a = b) (by simp)
  | .error a, .error b => decidable_of_iff (a = b) (by simp)
  | .ok _, .error _ => isFalse (by simp)
  | .error _, .ok _ => isFalse (by simp)

/-- Model of Python `s.split(sep)` for a one-character separator: splits on
every occurrence of `sep`, keeping empty segments, and returns `[""]` on the
empty string (Python semantics). -/
def splitOnChar (sep : Char) : Str → List Str
  | [] => [[]]
  | c :: rest =>
    let r := splitOnChar sep rest
    if c = sep then [] :: r
    else
      match r with
      | [] => [[c]]
      | g :: gs => (c :: g) :: gs

/-- Model of Python `sep.join(parts)` for a one-character separator. -/
def intercalateChar (sep : Char) : List Str → Str
  | [] => []
  | [g] => g
  | g :: gs => g ++ sep :: intercalateChar sep gs

/-- Model of Python `s.endswith(suffix)`. -/
def endsWithStr (suffix s : Str) : Bool :=
  decide (suffix <:+ s)

/-- Model of Python `c in s` for a one-character needle `c`. -/
def containsChar (c : Char) (s : Str) : Bool :=
  decide (c ∈ s)

/-- Model of Python string comparison `a <= b`: lexicographic by code point. -/
def strLe : Str → Str → Bool
  | [], _ => true
  | _ :: _, [] => false
  | a :: as, b :: bs => if a < b then true else if b < a then false else strLe as bs

/-- Model of Python `sorted(l)` on strings: a stable sort by `strLe`.  Since
`strLe` is a total order on `Str`, any correct sort produces this output. -/
def sortedStr (l : List Str) : List Str :=
  l.insertionSort (fun a b => strLe a b = true)

/-- The polars dtypes that occur in the embedded pipeline. -/
inductive PlDtype
  | Float32
  | Boolean
  | UInt32
  | Int64
  | Datetime
  deriving DecidableEq, Repr

/-- A single cell value in a polars column.  32-bit floats are modelled as
exact rationals (the claims under verification never depend on rounding),
datetimes as integers. -/
inductive PVal
  | null
  | f32 (x : Rat)
  | boolean (b : Bool)
  | u32 (n : Nat)
  | i64 (x : Int)
  | datetime (t : Int)
  deriving DecidableEq, Repr

/-- Embedding of `utils.parse_flat_feature_column` (utils.py lines 21–25): split on `"/"`;
fewer than three parts is an error; otherwise return
`(parts[0], "/".join(parts[1:-1]), parts[-1])`. -/
def parse_flat_feature_column (c : Str) : Except Str (Str × Str × Str) :=
  let parts := splitOnChar '/' c
  if parts.length < 3 then
    .error ("Column ".data ++ c ++ " is not a valid flat feature column!".data)
  else
    .ok (parts.headD [], intercalateChar '/' ((parts.drop 1).dropLast), parts.getLastD [])

/-- Embedding of `utils.get_flat_col_dtype` (utils.py lines 43–56): parse the column, then
map the aggregation segment through the closed enumeration. -/
def get_flat_col_dtype (col : Str) : Except Str PlDtype :=
  match parse_flat_feature_column col with
  | .error e => .error e
  | .ok (_code_type, _code, agg) =>
    if agg = "sum".data ∨ agg = "sum_sqd".data ∨ agg = "min".data ∨ agg = "max".data ∨
        agg = "value".data ∨ agg = "first".data then
      .ok .Float32
    else if agg = "present".data then
      .ok .Boolean
    else if agg = "count".data ∨ agg = "has_values_count".data then
      .ok .UInt32
    else
      .error ("Column name ".data ++ col ++ " malformed!".data)

/-- Strict polars cast of one cell value to a target dtype.  Null always casts
to null; numeric widenings succeed; a lossy cast fails loudly (strict mode)
rather than truncating. -/
def castVal (dt : PlDtype) (v : PVal) : Except Str PVal :=
  match dt, v with
  | _, .null => .ok .null
  | .Float32, .f32 x => .ok (.f32 x)
  | .Float32, .boolean b => .ok (.f32 (if b then 1 else 0))
  | .Float32, .u32 n => .ok (.f32 n)
  | .Float32, .i64 x => .ok (.f32 x)
  | .Boolean, .boolean b => .ok (.boolean b)
  | .Boolean, .f32 x => .ok (.boolean (x ≠ 0))
  | .Boolean, .u32 n => .ok (.boolean (n ≠ 0))
  | .Boolean, .i64 x => .ok (.boolean (x ≠ 0))
  | .UInt32, .u32 n => .ok (.u32 n)
  | .UInt32, .boolean b => .ok (.u32 (if b then 1 else 0))
  | .UInt32, .i64 x =>
    if 0 ≤ x ∧ x < 2 ^ 32 then .ok (.u32 x.toNat) else .error ("cast overflow".data)
  | .UInt32, .f32 x =>
    if x.den = 1 ∧ 0 ≤ x.num ∧ x.num < 2 ^ 32 then .ok (.u32 x.num.toNat)
    else .error ("strict cast failed".data)
  | .Int64, .i64 x => .ok (.i64 x)
  | .Int64, .u32 n => .ok (.i64 n)
  | .Int64, .boolean b => .ok (.i64 (if b then 1 else 0))
  | .Int64, .f32 x =>
    if x.den = 1 ∧ -(2 ^ 63) ≤ x.num ∧ x.num < 2 ^ 63 then .ok (.i64 x.num)
    else .error ("strict cast failed".data)
  | .Int64, .datetime t => .ok (.i64 t)
  | .Datetime, .datetime t => .ok (.datetime t)
  | _, _ => .error ("unsupported cast".data)

/-- A named, typed polars column of cell values. -/
structure PlColumn where
  name : Str
  dtype : PlDtype
  vals : List PVal
  deriving DecidableEq, Repr

/-- A polars dataframe: an ordered list of named columns. -/
structure PlDataFrame where
  cols : List PlColumn
  deriving DecidableEq, Repr

/-- Model of `df.columns`: the column names, in order. -/
def PlDataFrame.columns (df : PlDataFrame) : List Str :=
  df.cols.map (·.name)

/-- The number of rows (length of the first column; 0 for no columns). -/
def PlDataFrame.height (df : PlDataFrame) : Nat :=
  match df.cols with
  | [] => 0
  | c :: _ => c.vals.length

/-- Look up a column by name (first match, as polars names are unique). -/
def PlDataFrame.getCol? (df : PlDataFrame) (n : Str) : Option PlColumn :=
  df.cols.find? (fun c => decide (c.name = n))

/-- Resolve a list of requested column names against a dataframe, in order
(the lookup part of `df.select(...)`); the first missing name fails. -/
def selectCols (df : PlDataFrame) : List Str → Except Str (List PlColumn)
  | [] => .ok []
  | n :: ns =>
    match df.getCol? n with
    | some c =>
      match selectCols df ns with
      | .ok cs => .ok (c :: cs)
      | .error e => .error e
    | none => .error ("column not found".data)

/-- Model of `df.select(names)`: project onto the given columns in the given order.
Polars fails on a duplicate output name or a missing column. -/
def PlDataFrame.select (df : PlDataFrame) (names : List Str) : Except Str PlDataFrame :=
  if names.Nodup then
    match selectCols df names with
    | .ok cs => .ok ⟨cs⟩
    | .error e => .error e
  else
    .error ("duplicate column name".data)

/-- The list comprehension `[(c, get_flat_col_dtype(c)) for c in cols]`:
annotate every column name with its canonical dtype, left to right, the first
malformed name raising. -/
def dtypesFor : List Str → Except Str (List (Str × PlDtype))
  | [] => .ok []
  | c :: cs =>
    match get_flat_col_dtype c with
    | .ok dt =>
      match dtypesFor cs with
      | .ok ps => .ok ((c, dt) :: ps)
      | .error e => .error e
    | .error e => .error e

/-- Part one of the `with_columns` call: append the all-null literal columns
`pl.lit(None, dtype=dt).alias(c)` for the columns to add. -/
def addNullCols (df : PlDataFrame) (cs : List (Str × PlDtype)) : PlDataFrame :=
  ⟨df.cols ++ cs.map (fun p => ⟨p.1, p.2, List.replicate df.height .null⟩)⟩

/-- Strictly cast every cell of a column's value list. -/
def castVals (dt : PlDtype) : List PVal → Except Str (List PVal)
  | [] => .ok []
  | v :: vs =>
    match castVal dt v with
    | .ok w =>
      match castVals dt vs with
      | .ok ws => .ok (w :: ws)
      | .error e => .error e
    | .error e => .error e

/-- Part two of the `with_columns` call: replace each column to retype by
`pl.col(c).cast(dt).alias(c)`, casting every cell strictly; columns whose
name carries no requested dtype are untouched. -/
def retypeCols (cs : List (Str × PlDtype)) : List PlColumn → Except Str (List PlColumn)
  | [] => .ok []
  | col :: rest =>
    match
      ((match cs.find? (fun p => decide (p.1 = col.name)) with
        | some p =>
          match castVals p.2 col.vals with
          | .ok vs => .ok (⟨col.name, p.2, vs⟩ : PlColumn)
          | .error e => .error e
        | none => .ok col) : Except Str PlColumn) with
    | .ok col2 =>
      match retypeCols cs rest with
      | .ok rest2 => .ok (col2 :: rest2)
      | .error e => .error e
    | .error e => .error e

/-- The `pl.when(col != 0).then(col)` branch of one cell: a cell compares
unequal to zero exactly when it is non-null and numerically non-zero; any
other cell (zero, or null, whose comparison is null) becomes null. -/
def zeroToNullVal (v : PVal) : PVal :=
  match v with
  | .null => .null
  | .f32 x => if x = 0 then .null else .f32 x
  | .u32 n => if n = 0 then .null else .u32 n
  | .i64 x => if x = 0 then .null else .i64 x
  | .boolean b => if b then .boolean b else .null
  | .datetime t => .datetime t

/-- The `cs.ends_with("count")` pass applied over the whole frame: replace zeros by
nulls in every column whose name ends in `count` (utils.py lines 95–97). -/
def zeroCountsToNull (df : PlDataFrame) : PlDataFrame :=
  ⟨df.cols.map (fun c =>
    if endsWithStr ("count".data) c.name then
      ⟨c.name, c.dtype, c.vals.map zeroToNullVal⟩
    else c)⟩

/-- The key columns of `add_missing_cols` (utils.py lines 80–83): both
`patient_id` and `timestamp` when the frame carries a timestamp column, just
`patient_id` otherwise. -/
def keyCols (df : PlDataFrame) : List Str :=
  if ("timestamp".data) ∈ df.columns then ["patient_id".data, "timestamp".data]
  else ["patient_id".data]

/-- Embedding of `utils.add_missing_cols` (utils.py lines 59–98): add the canonical columns
that are missing as typed all-null columns, cast the ones that are present to
their canonical dtype, project onto key columns followed by the canonical
columns, and optionally turn zero counts into nulls. -/
def add_missing_cols (flat_df : PlDataFrame) (feature_columns : List Str)
    (set_count_0_to_null : Bool := false) : Except Str PlDataFrame :=
  match
    dtypesFor (feature_columns.filter (fun c => decide (c ∉ flat_df.columns))),
    dtypesFor (feature_columns.filter (fun c => decide (c ∈ flat_df.columns))) with
  | .ok cols_to_add, .ok cols_to_retype =>
    match retypeCols cols_to_retype (addNullCols flat_df cols_to_add).cols with
    | .ok cols2 =>
      match PlDataFrame.select ⟨cols2⟩ (keyCols flat_df ++ feature_columns) with
      | .ok df2 => if !set_count_0_to_null then .ok df2 else .ok (zeroCountsToNull df2)
      | .error e => .error e
    | .error e => .error e
  | .error e, _ => .error e
  | _, .error e => .error e

/-- Whether a cell holds a numeric value comparing equal to 0 (the test of
the `col != 0` predicate when the cell is non-null). -/
def PVal.isZeroNum : PVal → Bool
  | .f32 x => x = 0
  | .u32 n => n = 0
  | .i64 x => x = 0
  | .boolean b => !b
  | _ => false

/-- One row of a MEDS shard: a code, an optional timestamp (null marks a
static fact) and an optional numerical value. -/
structure MedsRow where
  code : Str
  timestamp : Option Str
  numerical_value : Option Int
  deriving DecidableEq, Repr

/-- Embedding of `utils.get_static_feature_cols` (utils.py lines 101–129): for each distinct
code among the rows with a null timestamp, emit `static/<code>/present` and
`static/<code>/first`, returning the whole list sorted. -/
def get_static_feature_cols (shard_df : List MedsRow) : List Str :=
  let static_df := shard_df.filter (fun r => r.timestamp.isNone)
  let codes := (static_df.map (·.code)).dedup
  let feature_columns := (codes.map (fun code =>
    ["static/".data ++ code ++ "/present".data, "static/".data ++ code ++ "/first".data])).flatten
  sortedStr feature_columns

/-- The column-selection predicate of `Iterator._load_shard`
(xgboost_sweep.py lines 120–128): a dynamic column is kept iff it splits on
`"/"` into more than three parts, its `parts[1:-2]` code passes the explicit
code set and the frequency set when they are present, and its `parts[-2:]`
aggregation passes the aggregation set when it is present. -/
def selectedColumn (codes_set min_frequency_set aggs_set : Option (List Str))
    (col : Str) : Bool :=
  let parts := splitOnChar '/' col
  decide (parts.length > 3) &&
  (match codes_set with
   | none => true
   | some s => decide (intercalateChar '/' ((parts.drop 1).dropLast.dropLast) ∈ s)) &&
  (match min_frequency_set with
   | none => true
   | some s => decide (intercalateChar '/' ((parts.drop 1).dropLast.dropLast) ∈ s)) &&
  (match aggs_set with
   | none => true
   | some s => decide (intercalateChar '/' (parts.drop (parts.length - 2)) ∈ s))

/-- The full column selection of `Iterator._load_shard` (lines 120–129): the
columns passing `selectedColumn`, then the two key columns appended. -/
def load_shard_selected_columns (codes_set min_frequency_set aggs_set : Option (List Str))
    (columns : List Str) : List Str :=
  columns.filter (selectedColumn codes_set min_frequency_set aggs_set) ++
    ["patient_id".data, "timestamp".data]

/-- The two as-of join strategies of `polars.join_asof`. -/
inductive AsofStrategy
  | forward
  | backward
  deriving DecidableEq, Repr

/-- The strategy choice of `Iterator._load_shard` (xgboost_sweep.py line 138):
`strategy="forward" if "-" in window else "backward"`. -/
def asof_strategy (window : Str) : AsofStrategy :=
  if containsChar '-' window then .forward else .backward

/-- A per-shard result of `Iterator._load_shard`: the feature rows `X` and
label rows `y` (numpy arrays modelled as lists of rows of cells). -/
abbrev NpMatrix := List (List PVal)

/-- The state of `xgboost_sweep.Iterator` that the advance/reset/collect
protocol reads: `data_shards` holds, for shard index `i`, the pair
`_load_shard(i)` would produce, and `it` is the cursor `self._it`. -/
structure Iterator where
  data_shards : List (NpMatrix × NpMatrix)
  it : Nat
  deriving DecidableEq, Repr

/-- Embedding of `Iterator._load_shard(idx)` at the protocol level: produce the pair for
shard `idx`; an out-of-range index is a (python `IndexError`) failure. -/
def Iterator.load_shard (s : Iterator) (idx : Nat) : Except Str (NpMatrix × NpMatrix) :=
  match s.data_shards[idx]? with
  | some p => .ok p
  | none => .error ("shard index out of range".data)

/-- Embedding of `Iterator.next` (xgboost_sweep.py lines 170–191): when the cursor equals
the shard count, signal `0` (exhausted) and change nothing; otherwise load the
shard at the cursor, hand the pair to the `input_data` sink, increment the
cursor and signal `1`.  The result is `(signal, data handed to the sink, new
state)`. -/
def Iterator.next (s : Iterator) :
    Except Str (Nat × Option (NpMatrix × NpMatrix) × Iterator) :=
  if s.it = s.data_shards.length then
    .ok (0, none, s)
  else
    match s.load_shard s.it with
    | .ok p => .ok (1, some p, { s with it := s.it + 1 })
    | .error e => .error e

/-- Embedding of `Iterator.reset` (xgboost_sweep.py lines 193–198): set the cursor to 0. -/
def Iterator.reset (s : Iterator) : Iterator :=
  { s with it := 0 }

/-- Model of `np.concatenate(ms, axis=0)`: row-wise concatenation; numpy raises on an
empty list of arrays. -/
def npConcatRows (ms : List NpMatrix) : Except Str NpMatrix :=
  match ms with
  | [] => .error ("need at least one array to concatenate".data)
  | _ => .ok ms.flatten

/-- The `for i in range(...)` loop of `collect_in_memory`: load the `n` shards
`i, i + 1, ..., i + n - 1` in ascending order. -/
def Iterator.loadFrom (s : Iterator) : Nat → Nat → Except Str (List (NpMatrix × NpMatrix))
  | _, 0 => .ok []
  | i, n + 1 =>
    match s.load_shard i with
    | .ok p =>
      match s.loadFrom (i + 1) n with
      | .ok ps => .ok (p :: ps)
      | .error e => .error e
    | .error e => .error e

/-- Embedding of `Iterator.collect_in_memory` (xgboost_sweep.py lines 200–216): load shard
`i` for every `i in range(len(self._data_shards))`, then concatenate the `X`
blocks and the `y` blocks row-wise. -/
def Iterator.collect_in_memory (s : Iterator) : Except Str (NpMatrix × NpMatrix) := do
  let pairs ← s.loadFrom 0 s.data_shards.length
  let x ← npConcatRows (pairs.map (·.1))
  let y ← npConcatRows (pairs.map (·.2))
  pure (x, y)

/-- Run `k` consecutive `next` calls, collecting every pair handed to the sink. -/
def Iterator.runNext (s : Iterator) : Nat → Except Str (List (NpMatrix × NpMatrix) × Iterator)
  | 0 => .ok ([], s)
  | k + 1 =>
    match s.next with
    | .ok (_sig, d, s1) =>
      match s1.runNext k with
      | .ok (ds, s2) => .ok (d.toList ++ ds, s2)
      | .error e => .error e
    | .error e => .error e

example : parse_flat_feature_column ("static/A/first".data) =
    .ok ("static".data, "A".data, "first".data) := by decide

example : get_flat_col_dtype ("static/A/first".data) = .ok .Float32 := by decide

example : get_flat_col_dtype ("A/count".data) =
    .error ("Column A/count is not a valid flat feature column!".data) := by decide

example : get_flat_col_dtype ("A/B/has_values_count".data) = .ok .UInt32 := by decide

example :
    get_static_feature_cols
      [⟨"A".data, none, some 1⟩,
       ⟨"A".data, some ("2021-01-01".data), none⟩,
       ⟨"B".data, some ("2021-01-01".data), some 2⟩,
       ⟨"B".data, some ("2021-01-02".data), some 2⟩,
       ⟨"C".data, some ("2021-01-03".data), none⟩,
       ⟨"C".data, some ("2021-01-04".data), none⟩,
       ⟨"C".data, none, some 3⟩] =
    ["static/A/first".data, "static/A/present".data,
     "static/C/first".data, "static/C/present".data] := by decide

example : selectedColumn none none none ("A/count".data) = false := by decide

example : selectedColumn none none none ("w/A/value/sum".data) = true := by decide

example : selectedColumn (some ["A".data]) none none ("w/A/value/sum".data) = true := by decide

example : asof_strategy ("30d-7d".data) = .forward := by decide

example : asof_strategy ("30d".data) = .backward := by decide

example :
    Iterator.runNext ⟨[([[.u32 1]], [[.u32 9]]), ([[.u32 2]], [[.u32 8]])], 0⟩ 3 =
    .ok ([([[.u32 1]], [[.u32 9]]), ([[.u32 2]], [[.u32 8]])],
         ⟨[([[.u32 1]], [[.u32 9]]), ([[.u32 2]], [[.u32 8]])], 2⟩) := by decide

example :
    Iterator.collect_in_memory ⟨[([[.u32 1]], [[.u32 9]]), ([[.u32 2]], [[.u32 8]])], 1⟩ =
    .ok ([[.u32 1], [.u32 2]], [[.u32 9], [.u32 8]]) := by decide

example :
    add_missing_cols
      ⟨[⟨"patient_id".data, .UInt32, [.u32 1, .u32 2]⟩,
        ⟨"junk".data, .Int64, [.i64 5, .i64 6]⟩,
        ⟨"static/B/first".data, .Int64, [.i64 0, .i64 7]⟩]⟩
      ["static/A/first".data, "static/B/first".data] false =
    .ok ⟨[⟨"patient_id".data, .UInt32, [.u32 1, .u32 2]⟩,
          ⟨"static/A/first".data, .Float32, [.null, .null]⟩,
          ⟨"static/B/first".data, .Float32, [.f32 0, .f32 7]⟩]⟩ := by decide

example :
    add_missing_cols
      ⟨[⟨"patient_id".data, .UInt32, [.u32 1, .u32 2]⟩,
        ⟨"A/B/count".data, .UInt32, [.u32 0, .u32 3]⟩]⟩
      ["A/B/count".data] true =
    .ok ⟨[⟨"patient_id".data, .UInt32, [.u32 1, .u32 2]⟩,
          ⟨"A/B/count".data, .UInt32, [.null, .u32 3]⟩]⟩ := by decide

/-! ## Helper lemmas about the string order -/

theorem strLe_total (a : Str) : ∀ b, strLe a b = true ∨ strLe b a = true := by
  induction a with
  | nil => intro b; left; rfl
  | cons a as ih =>
    intro b
    cases b with
    | nil => right; rfl
    | cons b bs =>
      rcases lt_trichotomy a b with h | h | h
      · left; simp [strLe, h]
      · subst h
        rcases ih bs with h2 | h2
        · left; simpa [strLe, lt_irrefl] using h2
        · right; simpa [strLe, lt_irrefl] using h2
      · right; simp [strLe, h]

theorem strLe_trans (a : Str) :
    ∀ b c, strLe a b = true → strLe b c = true → strLe a c = true := by
  induction a with
  | nil => intro b c _ _; rfl
  | cons a as ih =>
    intro b c hab hbc
    cases b with
    | nil => simp [strLe] at hab
    | cons b bs =>
      cases c with
      | nil => simp [strLe] at hbc
      | cons c cs =>
        by_cases h1 : a < b
        · by_cases h2 : b < c
          · simp [strLe, lt_trans h1 h2]
          · by_cases h3 : c < b
            · simp [strLe, h2, h3] at hbc
            · have hbceq : b = c := le_antisymm (le_of_not_lt h3) (le_of_not_lt h2)
              subst hbceq
              simp [strLe, h1]
        · by_cases h4 : b < a
          · simp [strLe, h1, h4] at hab
          · have habeq : a = b := le_antisymm (le_of_not_lt h4) (le_of_not_lt h1)
            subst habeq
            simp only [strLe, lt_irrefl, if_false] at hab hbc ⊢
            by_cases h5 : a < c
            · simp [h5]
            · by_cases h6 : c < a
              · simp [h5, h6] at hbc
              · simp [h5, h6] at hab hbc ⊢
                exact ih bs cs hab hbc

/-! ## C9: as-of join direction -/

/-- C9: in shard assembly, the as-of join uses the forward strategy exactly
when the window string contains the character `'-'` (a trailing/negative
offset), and the backward strategy otherwise. -/
theorem C9_join_strategy (window : Str) :
    (asof_strategy window = .forward ↔ '-' ∈ window) ∧
    (asof_strategy window = .backward ↔ '-' ∉ window) := by
  unfold asof_strategy containsChar
  by_cases h : '-' ∈ window <;> simp [h]

theorem C9_join_strategy_witness :
    asof_strategy ("30d-7d".data) = .forward ∧ asof_strategy ("30d".data) = .backward :=
  ⟨(C9_join_strategy ("30d-7d".data)).1.mpr (by decide),
   (C9_join_strategy ("30d".data)).2.mpr (by decide)⟩

/-! ## C10: parse_flat_feature_column error behaviour -/

/-- C10: `parse_flat_feature_column` errors on every name with fewer than
three `/`-separated segments; on a name with at least three segments it
returns (first segment, middle segments joined by `/`, last segment); hence
`get_flat_col_dtype` rejects every two-segment name `<code>/<agg>` with a
single-segment code, whatever its aggregation. -/
theorem C10_parse_two_segments (c : Str) :
    ((splitOnChar '/' c).length < 3 →
      parse_flat_feature_column c =
        .error ("Column ".data ++ c ++ " is not a valid flat feature column!".data)) ∧
    (3 ≤ (splitOnChar '/' c).length →
      parse_flat_feature_column c =
        .ok ((splitOnChar '/' c).headD [],
          intercalateChar '/' (((splitOnChar '/' c).drop 1).dropLast),
          (splitOnChar '/' c).getLastD [])) ∧
    ((splitOnChar '/' c).length = 2 →
      get_flat_col_dtype c =
        .error ("Column ".data ++ c ++ " is not a valid flat feature column!".data)) := by
  refine ⟨fun h => ?_, fun h => ?_, fun h => ?_⟩
  · simp [parse_flat_feature_column, h]
  · simp [parse_flat_feature_column, Nat.not_lt.mpr h]
  · have h3 : (splitOnChar '/' c).length < 3 := by omega
    simp [get_flat_col_dtype, parse_flat_feature_column, h3]

theorem C10_parse_two_segments_witness :
    get_flat_col_dtype ("A/present".data) =
      .error ("Column A/present is not a valid flat feature column!".data) := by
  have h := (C10_parse_two_segments ("A/present".data)).2.2 (by decide)
  simpa using h

/-! ## C1: the aggregation → dtype mapping -/

/-- C1 counterexample: `A/count` is a dynamic column name `<code>/<agg>` whose
aggregation `count` is inside the closed enumeration, yet `get_flat_col_dtype`
does not return the mapped type `UInt32` — it fails, because the parser
demands at least three `/`-separated segments. -/
theorem C1_counterexample :
    get_flat_col_dtype ("A/count".data) ≠ .ok PlDtype.UInt32 ∧
    get_flat_col_dtype ("A/count".data) =
      .error ("Column A/count is not a valid flat feature column!".data) := by
  decide

/-- C1 (amended): for every column name with at least three `/`-separated
segments — which covers the static names `static/<code>/<agg>` and the
dynamic names whose code itself contains `/` — `get_flat_col_dtype` returns
exactly the mapped type of the final segment (`Float32` for `sum`, `sum_sqd`,
`min`, `max`, `value`, `first`; `Boolean` for `present`; `UInt32` for `count`,
`has_values_count`) and fails when the final segment is outside the
enumeration; every name with fewer than three segments (in particular every
dynamic name `<code>/<agg>` with a single-segment code) fails regardless of
its aggregation. -/
theorem C1_dtype_mapping (col : Str) :
    ((splitOnChar '/' col).length < 3 →
      get_flat_col_dtype col =
        .error ("Column ".data ++ col ++ " is not a valid flat feature column!".data)) ∧
    (3 ≤ (splitOnChar '/' col).length →
      (((splitOnChar '/' col).getLastD [] ∈
          ["sum".data, "sum_sqd".data, "min".data, "max".data, "value".data, "first".data] →
          get_flat_col_dtype col = .ok .Float32) ∧
        ((splitOnChar '/' col).getLastD [] = "present".data →
          get_flat_col_dtype col = .ok .Boolean) ∧
        ((splitOnChar '/' col).getLastD [] ∈ ["count".data, "has_values_count".data] →
          get_flat_col_dtype col = .ok .UInt32) ∧
        ((splitOnChar '/' col).getLastD [] ∉
          ["sum".data, "sum_sqd".data, "min".data, "max".data, "value".data, "first".data,
            "present".data, "count".data, "has_values_count".data] →
          get_flat_col_dtype col =
            .error ("Column name ".data ++ col ++ " malformed!".data)))) := by
  constructor
  · intro h
    simp [get_flat_col_dtype, parse_flat_feature_column, h]
  · intro h
    have hnl : ¬ (splitOnChar '/' col).length < 3 := Nat.not_lt.mpr h
    have hp : parse_flat_feature_column col =
        .ok ((splitOnChar '/' col).headD [],
          intercalateChar '/' (((splitOnChar '/' col).drop 1).dropLast),
          (splitOnChar '/' col).getLastD []) := by
      simp [parse_flat_feature_column, hnl]
    unfold get_flat_col_dtype
    rw [hp]
    refine ⟨fun hm => ?_, fun hm => ?_, fun hm => ?_, fun hm => ?_⟩
    · simp only [List.mem_cons, List.not_mem_nil, or_false] at hm
      rcases hm with hm | hm | hm | hm | hm | hm <;> rw [hm] <;> simp +decide
    · rw [hm]; simp +decide
    · simp only [List.mem_cons, List.not_mem_nil, or_false] at hm
      rcases hm with hm | hm <;> rw [hm] <;> simp +decide
    · simp only [List.mem_cons, List.not_mem_nil, or_false, not_or] at hm
      obtain ⟨h1, h2, h3, h4, h5, h6, h7, h8, h9⟩ := hm
      simp only [h1, h2, h3, h4, h5, h6, h7, h8, h9, or_self, if_false]

theorem C1_dtype_mapping_witness :
    get_flat_col_dtype ("static/A/sum".data) = .ok .Float32 ∧
    get_flat_col_dtype ("static/A/present".data) = .ok .Boolean ∧
    get_flat_col_dtype ("A/B/count".data) = .ok .UInt32 ∧
    get_flat_col_dtype ("static/A/bogus".data) =
      .error ("Column name static/A/bogus malformed!".data) ∧
    get_flat_col_dtype ("A/sum".data) =
      .error ("Column A/sum is not a valid flat feature column!".data) :=
  ⟨((C1_dtype_mapping ("static/A/sum".data)).2 (by decide)).1 (by decide),
    ((C1_dtype_mapping ("static/A/present".data)).2 (by decide)).2.1 (by decide),
    ((C1_dtype_mapping ("A/B/count".data)).2 (by decide)).2.2.1 (by decide),
    by simpa using ((C1_dtype_mapping ("static/A/bogus".data)).2 (by decide)).2.2.2 (by decide),
    by simpa using (C1_dtype_mapping ("A/sum".data)).1 (by decide)⟩

/-! ## C2: the inclusion-filter column selection -/

/-- C2 counterexample: with all three inclusion axes absent, the claim says
every dynamic column passes, but the selection of `Iterator._load_shard`
rejects the two-segment column `A/count` (it requires strictly more than
three `/`-separated parts). -/
theorem C2_counterexample :
    selectedColumn none none none ("A/count".data) = false := by decide

/-- C2 (amended): a dynamic column passes the selection of
`Iterator._load_shard` iff it has strictly more than three `/`-separated
parts, its code — `"/".join(parts[1:-2])`, i.e. the parts between the first
part and the final two aggregation parts — belongs to the explicit-code set
and to the frequency set whenever those are present, and its aggregation —
`"/".join(parts[-2:])`, the final two parts — belongs to the aggregation set
whenever it is present.  An absent axis never excludes a column. -/
theorem C2_selection_characterization
    (codes_set min_frequency_set aggs_set : Option (List Str)) (col : Str) :
    selectedColumn codes_set min_frequency_set aggs_set col = true ↔
      (3 < (splitOnChar '/' col).length ∧
        (∀ s, codes_set = some s →
          intercalateChar '/' (((splitOnChar '/' col).drop 1).dropLast.dropLast) ∈ s) ∧
        (∀ s, min_frequency_set = some s →
          intercalateChar '/' (((splitOnChar '/' col).drop 1).dropLast.dropLast) ∈ s) ∧
        (∀ s, aggs_set = some s →
          intercalateChar '/'
            ((splitOnChar '/' col).drop ((splitOnChar '/' col).length - 2)) ∈ s)) := by
  unfold selectedColumn
  cases codes_set <;> cases min_frequency_set <;> cases aggs_set <;>
    simp [Bool.and_eq_true, and_assoc]

theorem C2_selection_characterization_witness :
    selectedColumn (some [ "A".data ]) none none ("w/A/value/sum".data) = true :=
  (C2_selection_characterization (some ["A".data]) none none ("w/A/value/sum".data)).mpr
    ⟨by decide,
      fun s hs => by injection hs with h; subst h; decide,
      fun s hs => by simp at hs,
      fun s hs => by simp at hs⟩

/-! ## C4 and C5: the iterator protocol -/

theorem loadFrom_drop (shards : List (NpMatrix × NpMatrix)) (j : Nat) :
    ∀ n i, i + n = shards.length →
      Iterator.loadFrom ⟨shards, j⟩ i n = .ok (shards.drop i) := by
  intro n
  induction n with
  | zero =>
    intro i hi
    have hi2 : i = shards.length := by omega
    subst hi2
    simp [Iterator.loadFrom]
  | succ n ih =>
    intro i hi
    have hlt : i < shards.length := by omega
    have hload : Iterator.load_shard ⟨shards, j⟩ i = .ok shards[i] := by
      simp [Iterator.load_shard, List.getElem?_eq_getElem hlt]
    have hstep : Iterator.loadFrom ⟨shards, j⟩ i (n + 1) =
        match Iterator.load_shard ⟨shards, j⟩ i with
        | .ok p =>
          match Iterator.loadFrom ⟨shards, j⟩ (i + 1) n with
          | .ok ps => .ok (p :: ps)
          | .error e => .error e
        | .error e => .error e := rfl
    rw [hstep, hload, ih (i + 1) (by omega), List.drop_eq_getElem_cons hlt]

/-- Reduction of an `Except` bind of a success value. -/
theorem okBind {ε α β : Type} (a : α) (f : α → Except ε β) :
    ((Except.ok a : Except ε α) >>= f) = f a := rfl

/-- Reduction of an `Except` map of a success value. -/
theorem okMap {ε α β : Type} (f : α → β) (a : α) :
    (f <$> (Except.ok a : Except ε α)) = Except.ok (f a) := rfl

/-- C4 counterexample: an iterator over two shards whose cursor stands at 1.
The claim says `collect_in_memory` concatenates only the shards from the
current index on (here: just shard 1), but the code loops over all shards
from 0, so shard 0's rows appear in the result as well. -/
theorem C4_counterexample :
    Iterator.collect_in_memory ⟨[([[.u32 1]], [[.u32 9]]), ([[.u32 2]], [[.u32 8]])], 1⟩ =
      .ok ([[.u32 1], [.u32 2]], [[.u32 9], [.u32 8]]) ∧
    (([[PVal.u32 1], [.u32 2]], [[PVal.u32 9], [.u32 8]]) ≠
      (([[.u32 2]] : NpMatrix), ([[.u32 8]] : NpMatrix))) :=
  ⟨by decide, by decide⟩

/-- C4 (amended): `collect_in_memory` does not run `next` at all — it loads
every shard `0, ..., N - 1` directly, independently of the iterator's current
index (which it leaves untouched), and returns the row-wise concatenation of
all the per-shard feature and label blocks; no prior `reset()` is needed.
(With zero shards it fails, as `np.concatenate` rejects an empty list.) -/
theorem C4_collect_in_memory (shards : List (NpMatrix × NpMatrix)) (i j : Nat)
    (h : shards ≠ []) :
    Iterator.collect_in_memory ⟨shards, i⟩ =
      .ok ((shards.map (·.1)).flatten, (shards.map (·.2)).flatten) ∧
    Iterator.collect_in_memory ⟨shards, i⟩ = Iterator.collect_in_memory ⟨shards, j⟩ := by
  have hload := loadFrom_drop shards i shards.length 0 (by omega)
  have hload2 := loadFrom_drop shards j shards.length 0 (by omega)
  rw [List.drop_zero] at hload hload2
  constructor
  · obtain ⟨q, qs, hm⟩ : ∃ q qs, shards.map (fun p => p.1) = q :: qs := by
      cases hmm : shards.map (fun p => p.1) with
      | nil => exact absurd (List.map_eq_nil_iff.mp hmm) h
      | cons q qs => exact ⟨q, qs, rfl⟩
    obtain ⟨r, rs, hm2⟩ : ∃ r rs, shards.map (fun p => p.2) = r :: rs := by
      cases hmm : shards.map (fun p => p.2) with
      | nil => exact absurd (List.map_eq_nil_iff.mp hmm) h
      | cons r rs => exact ⟨r, rs, rfl⟩
    simp only [Iterator.collect_in_memory, hload, okBind, npConcatRows, hm, hm2, okMap]
    rfl
  · simp only [Iterator.collect_in_memory, hload, hload2]

theorem C4_collect_in_memory_witness :
    Iterator.collect_in_memory ⟨[([[PVal.u32 1]], [[PVal.u32 9]])], 4⟩ =
      .ok ([[PVal.u32 1]], [[PVal.u32 9]]) := by
  have h := (C4_collect_in_memory [([[PVal.u32 1]], [[PVal.u32 9]])] 4 0 (by decide)).1
  simpa using h

theorem runNext_from (shards : List (NpMatrix × NpMatrix)) :
    ∀ k i, i ≤ shards.length →
      Iterator.runNext ⟨shards, i⟩ k =
        .ok ((shards.drop i).take k, ⟨shards, min (i + k) shards.length⟩) := by
  intro k
  induction k with
  | zero =>
    intro i hi
    simp [Iterator.runNext, Nat.min_eq_left hi]
  | succ k ih =>
    intro i hi
    have hstep : Iterator.runNext ⟨shards, i⟩ (k + 1) =
        match Iterator.next ⟨shards, i⟩ with
        | .ok (_sig, d, s1) =>
          match s1.runNext k with
          | .ok (ds, s2) => .ok (d.toList ++ ds, s2)
          | .error e => .error e
        | .error e => .error e := rfl
    by_cases he : i = shards.length
    · subst he
      have hnext : Iterator.next ⟨shards, shards.length⟩ =
          .ok (0, none, ⟨shards, shards.length⟩) := by
        simp [Iterator.next]
      simp only [hstep, hnext, ih shards.length le_rfl]
      simp [Nat.min_eq_right (Nat.le_add_right shards.length k),
        Nat.min_eq_right (Nat.le_add_right shards.length (k + 1))]
    · have hlt : i < shards.length := lt_of_le_of_ne hi he
      have hnext : Iterator.next ⟨shards, i⟩ =
          .ok (1, some shards[i], ⟨shards, i + 1⟩) := by
        simp [Iterator.next, he, Iterator.load_shard, List.getElem?_eq_getElem hlt]
      have harith : i + 1 + k = i + (k + 1) := by omega
      simp only [hstep, hnext, ih (i + 1) hlt]
      simp only [Option.toList_some, List.singleton_append,
        List.drop_eq_getElem_cons hlt, List.take_succ_cons, harith]

/-- C5: for an iterator over `N` shards starting at index 0, the first `N`
`next` calls supply the shards in order, each advancing the cursor by one
(after `k` calls the supplied data is `shards.take k` and the cursor is
`min k N`); every further call signals 0 and leaves the state unchanged; and
`reset` unconditionally sets the cursor back to 0 from any state. -/
theorem C5_iterator_exhaustion (shards : List (NpMatrix × NpMatrix)) :
    (∀ k, Iterator.runNext ⟨shards, 0⟩ k =
      .ok (shards.take k, ⟨shards, min k shards.length⟩)) ∧
    (∀ i, i < shards.length →
      Iterator.next ⟨shards, i⟩ = .ok (1, shards[i]?, ⟨shards, i + 1⟩)) ∧
    (Iterator.next ⟨shards, shards.length⟩ = .ok (0, none, ⟨shards, shards.length⟩)) ∧
    (∀ s : Iterator, s.reset = ⟨s.data_shards, 0⟩) := by
  refine ⟨fun k => ?_, fun i hlt => ?_, ?_, fun s => rfl⟩
  · have h := runNext_from shards k 0 (Nat.zero_le _)
    simpa using h
  · simp [Iterator.next, Nat.ne_of_lt hlt, Iterator.load_shard,
      List.getElem?_eq_getElem hlt]
  · simp [Iterator.next]

theorem C5_iterator_exhaustion_witness :
    Iterator.runNext ⟨[([[PVal.u32 1]], [[PVal.u32 2]])], 0⟩ 3 =
      .ok ([([[PVal.u32 1]], [[PVal.u32 2]])], ⟨[([[PVal.u32 1]], [[PVal.u32 2]])], 1⟩) ∧
    Iterator.next ⟨[([[PVal.u32 1]], [[PVal.u32 2]])], 0⟩ =
      .ok (1, some ([[PVal.u32 1]], [[PVal.u32 2]]),
        ⟨[([[PVal.u32 1]], [[PVal.u32 2]])], 1⟩) := by
  constructor
  · have h := (C5_iterator_exhaustion [([[PVal.u32 1]], [[PVal.u32 2]])]).1 3
    simpa using h
  · have h := (C5_iterator_exhaustion [([[PVal.u32 1]], [[PVal.u32 2]])]).2.1 0 (by decide)
    simpa using h

/-! ## C8: static feature column enumeration -/

theorem staticName_inj (suf c1 c2 : Str)
    (h : "static/".data ++ c1 ++ suf = "static/".data ++ c2 ++ suf) : c1 = c2 :=
  List.append_cancel_left (List.append_cancel_right h)

theorem staticName_present_ne_first (c1 c2 : Str) :
    "static/".data ++ c1 ++ "/present".data ≠ "static/".data ++ c2 ++ "/first".data := by
  intro h
  have h2 := congrArg (fun l : Str => l.reverse[1]?) h
  simp only [List.reverse_append] at h2
  rw [List.getElem?_append_left (by decide), List.getElem?_append_left (by decide)] at h2
  exact absurd h2 (by decide)

/-- C8: `get_static_feature_cols` returns a list that is sorted
lexicographically, has no duplicates, and contains exactly the names
`static/<code>/present` and `static/<code>/first` for the codes of rows whose
timestamp is null; on the docstring's data (codes `A A B B C C C` with
timestamps `null t1 t1 t2 t3 t4 null`) it returns
`[static/A/first, static/A/present, static/C/first, static/C/present]`. -/
theorem C8_static_columns (shard_df : List MedsRow) :
    List.Pairwise (fun a b => strLe a b = true) (get_static_feature_cols shard_df) ∧
    List.Nodup (get_static_feature_cols shard_df) ∧
    (∀ name, name ∈ get_static_feature_cols shard_df ↔
      ∃ r, r ∈ shard_df ∧ r.timestamp = none ∧
        (name = "static/".data ++ r.code ++ "/present".data ∨
         name = "static/".data ++ r.code ++ "/first".data)) ∧
    get_static_feature_cols
      [⟨"A".data, none, some 1⟩,
       ⟨"A".data, some ("2021-01-01".data), none⟩,
       ⟨"B".data, some ("2021-01-01".data), some 2⟩,
       ⟨"B".data, some ("2021-01-02".data), some 2⟩,
       ⟨"C".data, some ("2021-01-03".data), none⟩,
       ⟨"C".data, some ("2021-01-04".data), none⟩,
       ⟨"C".data, none, some 3⟩] =
      ["static/A/first".data, "static/A/present".data,
       "static/C/first".data, "static/C/present".data] := by
  haveI : IsTotal Str (fun a b => strLe a b = true) := ⟨strLe_total⟩
  haveI : IsTrans Str (fun a b => strLe a b = true) :=
    ⟨fun a b c hab hbc => strLe_trans a b c hab hbc⟩
  have hperm := List.perm_insertionSort (fun a b => strLe a b = true)
    ((((shard_df.filter (fun r => r.timestamp.isNone)).map (·.code)).dedup.map
      (fun code =>
        ["static/".data ++ code ++ "/present".data,
         "static/".data ++ code ++ "/first".data])).flatten)
  refine ⟨List.sorted_insertionSort _ _, ?_, ?_, by decide⟩
  · refine hperm.symm.nodup ?_
    rw [List.nodup_flatten]
    constructor
    · intro l hl
      simp only [List.mem_map] at hl
      obtain ⟨code, _, rfl⟩ := hl
      exact List.nodup_cons.mpr
        ⟨by simp only [List.mem_singleton]; exact staticName_present_ne_first code code,
          List.nodup_singleton _⟩
    · have hnd : List.Pairwise (fun a b => a ≠ b)
          (((shard_df.filter (fun r => r.timestamp.isNone)).map (·.code)).dedup) :=
        List.nodup_dedup _
      refine List.Pairwise.map _ ?_ hnd
      intro c1 c2 hne a ha hb
      simp only [List.mem_cons, List.not_mem_nil, or_false] at ha hb
      rcases ha with rfl | rfl <;> rcases hb with hb | hb
      · exact hne (staticName_inj _ c1 c2 hb)
      · exact staticName_present_ne_first c1 c2 hb
      · exact staticName_present_ne_first c2 c1 hb.symm
      · exact hne (staticName_inj _ c1 c2 hb)
  · intro name
    rw [get_static_feature_cols, sortedStr, hperm.mem_iff]
    simp only [List.mem_flatten, List.mem_map, List.mem_dedup, List.mem_filter,
      Option.isNone_iff_eq_none, List.mem_cons, List.not_mem_nil, or_false]
    constructor
    · rintro ⟨l, ⟨code, ⟨r, ⟨hr, hts⟩, hcode⟩, rfl⟩, hname⟩
      exact ⟨r, hr, hts, by rw [hcode]; simpa using hname⟩
    · rintro ⟨r, hr, hts, hname⟩
      refine ⟨_, ⟨r.code, ⟨r, ⟨hr, hts⟩, rfl⟩, rfl⟩, ?_⟩
      simpa using hname

/-! ## Normalization helper lemmas -/

theorem castVal_idem (dt : PlDtype) (v w : PVal) (h : castVal dt v = .ok w) :
    castVal dt w = .ok w := by
  cases dt <;> cases v <;>
    simp only [castVal] at h <;>
    first
      | (exact Except.noConfusion h)
      | (injection h with h2; subst h2; rfl)
      | (split at h <;>
          first
            | (exact Except.noConfusion h)
            | (injection h with h2; subst h2; rfl))

theorem zeroToNullVal_idem (v : PVal) :
    zeroToNullVal (zeroToNullVal v) = zeroToNullVal v := by
  cases v <;> simp only [zeroToNullVal] <;> split_ifs <;> simp_all [zeroToNullVal]

theorem castVal_zeroToNull (dt : PlDtype) (v : PVal) (h : castVal dt v = .ok v) :
    castVal dt (zeroToNullVal v) = .ok (zeroToNullVal v) := by
  cases v <;> simp only [zeroToNullVal] <;>
    first
      | exact h
      | (split_ifs <;> first | exact h | (simp [castVal]))

theorem castVals_ok_fixed (dt : PlDtype) :
    ∀ vs ws, castVals dt vs = .ok ws → ∀ w ∈ ws, castVal dt w = .ok w := by
  intro vs
  induction vs with
  | nil =>
    intro ws h w hw
    simp only [castVals] at h
    injection h with h2
    subst h2
    simp at hw
  | cons v vs ih =>
    intro ws h w hw
    simp only [castVals] at h
    cases h1 : castVal dt v with
    | error e => rw [h1] at h; exact absurd h (by simp)
    | ok w1 =>
      rw [h1] at h
      cases h2 : castVals dt vs with
      | error e => rw [h2] at h; exact absurd h (by simp)
      | ok ws1 =>
        rw [h2] at h
        injection h with h3
        subst h3
        rcases List.mem_cons.mp hw with rfl | hw2
        · exact castVal_idem dt v w h1
        · exact ih ws1 h2 w hw2

theorem castVals_fixed (dt : PlDtype) :
    ∀ vs, (∀ v ∈ vs, castVal dt v = .ok v) → castVals dt vs = .ok vs := by
  intro vs
  induction vs with
  | nil => intro _; rfl
  | cons v vs ih =>
    intro h
    have hv := h v (List.mem_cons_self v vs)
    have hrest := ih (fun w hw => h w (List.mem_cons_of_mem v hw))
    simp only [castVals, hv, hrest]

theorem dtypesFor_mem :
    ∀ ns ps, dtypesFor ns = .ok ps → ∀ p ∈ ps, get_flat_col_dtype p.1 = .ok p.2 := by
  intro ns
  induction ns with
  | nil =>
    intro ps h p hp
    simp only [dtypesFor] at h
    injection h with h2
    subst h2
    simp at hp
  | cons c cs ih =>
    intro ps h p hp
    simp only [dtypesFor] at h
    cases h1 : get_flat_col_dtype c with
    | error e => rw [h1] at h; exact absurd h (by simp)
    | ok dt =>
      rw [h1] at h
      cases h2 : dtypesFor cs with
      | error e => rw [h2] at h; exact absurd h (by simp)
      | ok ps1 =>
        rw [h2] at h
        injection h with h3
        subst h3
        rcases List.mem_cons.mp hp with rfl | hp2
        · exact h1
        · exact ih ps1 h2 p hp2

theorem dtypesFor_fst :
    ∀ ns ps, dtypesFor ns = .ok ps → ps.map Prod.fst = ns := by
  intro ns
  induction ns with
  | nil =>
    intro ps h
    simp only [dtypesFor] at h
    injection h with h2
    subst h2
    rfl
  | cons c cs ih =>
    intro ps h
    simp only [dtypesFor] at h
    cases h1 : get_flat_col_dtype c with
    | error e => rw [h1] at h; exact absurd h (by simp)
    | ok dt =>
      rw [h1] at h
      cases h2 : dtypesFor cs with
      | error e => rw [h2] at h; exact absurd h (by simp)
      | ok ps1 =>
        rw [h2] at h
        injection h with h3
        subst h3
        simp [ih ps1 h2]

theorem dtypesFor_find :
    ∀ ns ps c, dtypesFor ns = .ok ps → c ∈ ns →
      ∃ dt, get_flat_col_dtype c = .ok dt ∧
        ps.find? (fun p => decide (p.1 = c)) = some (c, dt) := by
  intro ns
  induction ns with
  | nil => intro ps c _ hc; simp at hc
  | cons n cs ih =>
    intro ps c h hc
    simp only [dtypesFor] at h
    cases h1 : get_flat_col_dtype n with
    | error e => rw [h1] at h; exact absurd h (by simp)
    | ok dt =>
      rw [h1] at h
      cases h2 : dtypesFor cs with
      | error e => rw [h2] at h; exact absurd h (by simp)
      | ok ps1 =>
        rw [h2] at h
        injection h with h3
        subst h3
        by_cases hcn : c = n
        · subst hcn
          exact ⟨dt, h1, by simp⟩
        · obtain ⟨dt2, hdt2, hfind⟩ :=
            ih ps1 c h2 (by rcases List.mem_cons.mp hc with h4 | h4 <;> [exact absurd h4 hcn; exact h4])
          refine ⟨dt2, hdt2, ?_⟩
          rw [List.find?_cons_of_neg _
            (by simp only [decide_eq_true_eq]; exact fun hh => hcn hh.symm), hfind]

theorem dtypesFor_total :
    ∀ ns, (∀ c ∈ ns, ∃ dt, get_flat_col_dtype c = .ok dt) →
      ∃ ps, dtypesFor ns = .ok ps := by
  intro ns
  induction ns with
  | nil => intro _; exact ⟨[], rfl⟩
  | cons c cs ih =>
    intro h
    obtain ⟨dt, hdt⟩ := h c (List.mem_cons_self c cs)
    obtain ⟨ps, hps⟩ := ih (fun d hd => h d (List.mem_cons_of_mem c hd))
    exact ⟨(c, dt) :: ps, by simp only [dtypesFor, hdt, hps]⟩

theorem getCol?_name (df : PlDataFrame) (n : Str) (c : PlColumn)
    (h : df.getCol? n = some c) : c.name = n := by
  have h2 := List.find?_some h
  simpa using h2

theorem getCol?_mem (df : PlDataFrame) (n : Str) (c : PlColumn)
    (h : df.getCol? n = some c) : c ∈ df.cols :=
  List.mem_of_find?_eq_some h

theorem selectCols_names (df : PlDataFrame) :
    ∀ ns cs, selectCols df ns = .ok cs → cs.map (·.name) = ns := by
  intro ns
  induction ns with
  | nil =>
    intro cs h
    injection h with h2
    subst h2
    rfl
  | cons n ns ih =>
    intro cs h
    simp only [selectCols] at h
    cases h1 : df.getCol? n with
    | none => rw [h1] at h; exact Except.noConfusion h
    | some c =>
      rw [h1] at h
      cases h2 : selectCols df ns with
      | error e => rw [h2] at h; exact Except.noConfusion h
      | ok cs1 =>
        rw [h2] at h
        injection h with h3
        subst h3
        simp [getCol?_name df n c h1, ih cs1 h2]

theorem selectCols_getCol? (df : PlDataFrame) :
    ∀ ns cs, selectCols df ns = .ok cs → ∀ m ∈ ns,
      PlDataFrame.getCol? ⟨cs⟩ m = df.getCol? m := by
  intro ns
  induction ns with
  | nil => intro cs _ m hm; simp at hm
  | cons n ns ih =>
    intro cs h m hm
    simp only [selectCols] at h
    cases h1 : df.getCol? n with
    | none => rw [h1] at h; exact Except.noConfusion h
    | some c =>
      rw [h1] at h
      cases h2 : selectCols df ns with
      | error e => rw [h2] at h; exact Except.noConfusion h
      | ok cs1 =>
        rw [h2] at h
        injection h with h3
        subst h3
        have hcn : c.name = n := getCol?_name df n c h1
        by_cases hmn : m = n
        · subst hmn
          rw [h1]
          simp only [PlDataFrame.getCol?]
          rw [List.find?_cons_of_pos _ (by simp [hcn])]
        · have hm2 : m ∈ ns := by
            rcases List.mem_cons.mp hm with h4 | h4
            · exact absurd h4 hmn
            · exact h4
          have := ih cs1 h2 m hm2
          simp only [PlDataFrame.getCol?] at this ⊢
          rw [List.find?_cons_of_neg _
            (by simp only [hcn, decide_eq_true_eq]; exact fun hh => hmn hh.symm)]
          exact this

theorem selectCols_mem (df : PlDataFrame) :
    ∀ ns cs, selectCols df ns = .ok cs → ∀ c ∈ cs, c ∈ df.cols := by
  intro ns
  induction ns with
  | nil =>
    intro cs h c hc
    injection h with h2
    subst h2
    simp at hc
  | cons n ns ih =>
    intro cs h c hc
    simp only [selectCols] at h
    cases h1 : df.getCol? n with
    | none => rw [h1] at h; exact Except.noConfusion h
    | some c1 =>
      rw [h1] at h
      cases h2 : selectCols df ns with
      | error e => rw [h2] at h; exact Except.noConfusion h
      | ok cs1 =>
        rw [h2] at h
        injection h with h3
        subst h3
        rcases List.mem_cons.mp hc with rfl | hc2
        · exact getCol?_mem df n c h1
        · exact ih cs1 h2 c hc2

theorem selectCols_self (df : PlDataFrame) :
    ∀ cols : List PlColumn, (∀ c ∈ cols, df.getCol? c.name = some c) →
      selectCols df (cols.map (·.name)) = .ok cols := by
  intro cols
  induction cols with
  | nil => intro _; rfl
  | cons c cs ih =>
    intro h
    have hc := h c (List.mem_cons_self c cs)
    have hrest := ih (fun d hd => h d (List.mem_cons_of_mem c hd))
    simp only [List.map_cons, selectCols, hc, hrest]

theorem getCol?_mem_self (t : PlDataFrame) (hnd : t.columns.Nodup) :
    ∀ c ∈ t.cols, t.getCol? c.name = some c := by
  obtain ⟨cols⟩ := t
  simp only [PlDataFrame.columns] at hnd
  simp only [PlDataFrame.getCol?]
  induction cols with
  | nil => intro c hc; simp at hc
  | cons d ds ih =>
    intro c hc
    rcases List.mem_cons.mp hc with rfl | hc2
    · simp
    · have hne : ¬ d.name = c.name := by
        intro he
        have : c.name ∈ ds.map (·.name) := List.mem_map_of_mem _ hc2
        rw [← he] at this
        exact (List.nodup_cons.mp (by simpa using hnd)).1 this
      rw [List.find?_cons_of_neg _ (by simp [hne])]
      exact ih (List.nodup_cons.mp (by simpa using hnd)).2 c hc2

theorem select_ok_inv (df : PlDataFrame) (ns : List Str) (t : PlDataFrame)
    (h : df.select ns = .ok t) : ns.Nodup ∧ selectCols df ns = .ok t.cols := by
  simp only [PlDataFrame.select] at h
  split at h
  · cases h1 : selectCols df ns with
    | error e => rw [h1] at h; exact Except.noConfusion h
    | ok cs =>
      rw [h1] at h
      injection h with h2
      subst h2
      exact ⟨by assumption, rfl⟩
  · exact Except.noConfusion h

theorem select_columns (df : PlDataFrame) (ns : List Str) (t : PlDataFrame)
    (h : df.select ns = .ok t) : t.columns = ns :=
  selectCols_names df ns t.cols (select_ok_inv df ns t h).2

theorem select_self (t : PlDataFrame) (hnd : t.columns.Nodup) :
    t.select t.columns = .ok t := by
  have hsc : selectCols t (t.cols.map (·.name)) = .ok t.cols :=
    selectCols_self t t.cols (getCol?_mem_self t hnd)
  simp only [PlDataFrame.select, hnd, if_true]
  rw [show t.columns = t.cols.map (·.name) from rfl, hsc]

theorem retypeCols_mem (cs : List (Str × PlDtype)) :
    ∀ cols cols2, retypeCols cs cols = .ok cols2 → ∀ c2 ∈ cols2,
      ∃ c0 ∈ cols, c0.name = c2.name ∧
        ((cs.find? (fun q => decide (q.1 = c0.name)) = none ∧ c2 = c0) ∨
          (∃ p vs, cs.find? (fun q => decide (q.1 = c0.name)) = some p ∧
            castVals p.2 c0.vals = .ok vs ∧ c2 = ⟨c0.name, p.2, vs⟩)) := by
  intro cols
  induction cols with
  | nil =>
    intro cols2 h c2 hc2
    injection h with h2
    subst h2
    simp at hc2
  | cons col rest ih =>
    intro cols2 h c2 hc2
    simp only [retypeCols] at h
    cases hf : cs.find? (fun q => decide (q.1 = col.name)) with
    | none =>
      simp only [hf] at h
      cases h2 : retypeCols cs rest with
      | error e => simp only [h2] at h; exact Except.noConfusion h
      | ok rest2 =>
        simp only [h2] at h
        injection h with h3
        subst h3
        rcases List.mem_cons.mp hc2 with rfl | hc3
        · exact ⟨c2, List.mem_cons_self c2 rest, rfl, Or.inl ⟨hf, rfl⟩⟩
        · obtain ⟨c0, hc0, hn, hcase⟩ := ih rest2 h2 c2 hc3
          exact ⟨c0, List.mem_cons_of_mem col hc0, hn, hcase⟩
    | some p =>
      simp only [hf] at h
      cases hcast : castVals p.2 col.vals with
      | error e => simp only [hcast] at h; exact Except.noConfusion h
      | ok vs =>
        simp only [hcast] at h
        cases h2 : retypeCols cs rest with
        | error e => simp only [h2] at h; exact Except.noConfusion h
        | ok rest2 =>
          simp only [h2] at h
          injection h with h3
          subst h3
          rcases List.mem_cons.mp hc2 with rfl | hc3
          · exact ⟨col, List.mem_cons_self col rest, rfl,
              Or.inr ⟨p, vs, hf, hcast, rfl⟩⟩
          · obtain ⟨c0, hc0, hn, hcase⟩ := ih rest2 h2 c2 hc3
            exact ⟨c0, List.mem_cons_of_mem col hc0, hn, hcase⟩

theorem retypeCols_fixed (cs : List (Str × PlDtype)) :
    ∀ cols, (∀ col ∈ cols, ∀ p, cs.find? (fun q => decide (q.1 = col.name)) = some p →
        p.2 = col.dtype ∧ castVals p.2 col.vals = .ok col.vals) →
      retypeCols cs cols = .ok cols := by
  intro cols
  induction cols with
  | nil => intro _; rfl
  | cons col rest ih =>
    intro h
    have hrest := ih (fun d hd => h d (List.mem_cons_of_mem col hd))
    cases hf : cs.find? (fun q => decide (q.1 = col.name)) with
    | none => simp only [retypeCols, hf, hrest]
    | some p =>
      obtain ⟨hdt, hcast⟩ := h col (List.mem_cons_self col rest) p hf
      have hcol : (⟨col.name, p.2, col.vals⟩ : PlColumn) = col := by
        obtain ⟨n, d, vs⟩ := col
        simp [hdt]
      simp only [retypeCols, hf, hcast, hrest, hcol]

theorem retypeCols_find_untouched (cs : List (Str × PlDtype)) :
    ∀ cols cols2, retypeCols cs cols = .ok cols2 → ∀ n,
      cs.find? (fun q => decide (q.1 = n)) = none →
      cols2.find? (fun c => decide (c.name = n)) =
        cols.find? (fun c => decide (c.name = n)) := by
  intro cols
  induction cols with
  | nil =>
    intro cols2 h n _
    injection h with h2
    subst h2
    rfl
  | cons col rest ih =>
    intro cols2 h n hn
    simp only [retypeCols] at h
    cases hf : cs.find? (fun q => decide (q.1 = col.name)) with
    | none =>
      simp only [hf] at h
      cases h2 : retypeCols cs rest with
      | error e => simp only [h2] at h; exact Except.noConfusion h
      | ok rest2 =>
        simp only [h2] at h
        injection h with h3
        subst h3
        by_cases hname : col.name = n
        · rw [List.find?_cons_of_pos _ (by simp [hname]),
            List.find?_cons_of_pos _ (by simp [hname])]
        · rw [List.find?_cons_of_neg _ (by simp [hname]),
            List.find?_cons_of_neg _ (by simp [hname])]
          exact ih rest2 h2 n hn
    | some p =>
      simp only [hf] at h
      cases hcast : castVals p.2 col.vals with
      | error e => simp only [hcast] at h; exact Except.noConfusion h
      | ok vs =>
        simp only [hcast] at h
        cases h2 : retypeCols cs rest with
        | error e => simp only [h2] at h; exact Except.noConfusion h
        | ok rest2 =>
          simp only [h2] at h
          injection h with h3
          subst h3
          have hname : ¬ col.name = n := by
            intro he
            rw [he] at hf
            simp only [hf] at hn
            exact Option.noConfusion hn
          rw [List.find?_cons_of_neg _ (by simp [hname]),
            List.find?_cons_of_neg _ (by simp [hname])]
          exact ih rest2 h2 n hn

theorem zeroCountsToNull_columns (t : PlDataFrame) :
    (zeroCountsToNull t).columns = t.columns := by
  simp only [zeroCountsToNull, PlDataFrame.columns, List.map_map]
  apply List.map_congr_left
  intro c _
  by_cases h : endsWithStr ("count".data) c.name = true <;> simp [h]

theorem zeroCountsToNull_fixed (t : PlDataFrame)
    (h : ∀ col ∈ t.cols, endsWithStr ("count".data) col.name = true →
      col.vals.map zeroToNullVal = col.vals) :
    zeroCountsToNull t = t := by
  obtain ⟨cols⟩ := t
  simp only [zeroCountsToNull, PlDataFrame.mk.injEq]
  have : ∀ c ∈ cols,
      (if endsWithStr ("count".data) c.name then
        (⟨c.name, c.dtype, c.vals.map zeroToNullVal⟩ : PlColumn)
      else c) = c := by
    intro c hc
    by_cases hce : endsWithStr ("count".data) c.name = true
    · simp only [hce, if_true]
      obtain ⟨n, d, vs⟩ := c
      simp only [PlColumn.mk.injEq, true_and]
      exact h _ hc hce
    · simp [hce]
  calc cols.map _ = cols.map id := List.map_congr_left this
    _ = cols := List.map_id cols

theorem addNullCols_nil (df : PlDataFrame) : addNullCols df [] = df := by
  obtain ⟨cols⟩ := df
  simp [addNullCols]

theorem amc_ok_inv (df : PlDataFrame) (fcols : List Str) (flag : Bool) (t : PlDataFrame)
    (h : add_missing_cols df fcols flag = .ok t) :
    ∃ add retype cols2 t2,
      dtypesFor (fcols.filter (fun c => decide (c ∉ df.columns))) = .ok add ∧
      dtypesFor (fcols.filter (fun c => decide (c ∈ df.columns))) = .ok retype ∧
      retypeCols retype (addNullCols df add).cols = .ok cols2 ∧
      PlDataFrame.select ⟨cols2⟩ (keyCols df ++ fcols) = .ok t2 ∧
      t = (if flag then zeroCountsToNull t2 else t2) := by
  unfold add_missing_cols at h
  cases h1 : dtypesFor (fcols.filter (fun c => decide (c ∉ df.columns))) with
  | error e => simp only [h1] at h; exact Except.noConfusion h
  | ok add =>
    simp only [h1] at h
    cases h2 : dtypesFor (fcols.filter (fun c => decide (c ∈ df.columns))) with
    | error e => simp only [h2] at h; exact Except.noConfusion h
    | ok retype =>
      simp only [h2] at h
      cases h3 : retypeCols retype (addNullCols df add).cols with
      | error e => simp only [h3] at h; exact Except.noConfusion h
      | ok cols2 =>
        simp only [h3] at h
        cases h4 : PlDataFrame.select ⟨cols2⟩ (keyCols df ++ fcols) with
        | error e => simp only [h4] at h; exact Except.noConfusion h
        | ok t2 =>
          simp only [h4] at h
          cases flag with
          | false =>
            simp only [Bool.not_false, if_true] at h
            injection h with h5
            refine ⟨add, retype, cols2, t2, rfl, rfl, h3, h4, ?_⟩
            simpa using h5.symm
          | true =>
            simp only [Bool.not_true, if_false] at h
            injection h with h5
            refine ⟨add, retype, cols2, t2, rfl, rfl, h3, h4, ?_⟩
            simpa using h5.symm

theorem castVal_null (dt : PlDtype) : castVal dt .null = .ok .null := by
  cases dt <;> rfl

theorem amc_fcols_dtype (df : PlDataFrame) (fcols : List Str) (flag : Bool) (t : PlDataFrame)
    (h : add_missing_cols df fcols flag = .ok t) :
    ∀ c ∈ fcols, ∃ dt, get_flat_col_dtype c = .ok dt := by
  obtain ⟨add, retype, cols2, t2, h1, h2, _h3, _h4, _ht⟩ := amc_ok_inv df fcols flag t h
  intro c hc
  by_cases hmem : c ∈ df.columns
  · obtain ⟨dt, hdt, _⟩ := dtypesFor_find _ _ c h2 (List.mem_filter.mpr ⟨hc, by simp [hmem]⟩)
    exact ⟨dt, hdt⟩
  · obtain ⟨dt, hdt, _⟩ := dtypesFor_find _ _ c h1 (List.mem_filter.mpr ⟨hc, by simp [hmem]⟩)
    exact ⟨dt, hdt⟩

theorem amc_columns (df : PlDataFrame) (fcols : List Str) (flag : Bool) (t : PlDataFrame)
    (h : add_missing_cols df fcols flag = .ok t) :
    t.columns = keyCols df ++ fcols ∧ (keyCols df ++ fcols).Nodup := by
  obtain ⟨add, retype, cols2, t2, _h1, _h2, _h3, h4, ht⟩ := amc_ok_inv df fcols flag t h
  have hnd := (select_ok_inv _ _ _ h4).1
  have hcols := select_columns _ _ _ h4
  refine ⟨?_, hnd⟩
  cases flag with
  | false => simpa using ht ▸ hcols
  | true =>
    subst ht
    simpa [zeroCountsToNull_columns] using hcols

theorem amc_shape (df : PlDataFrame) (fcols : List Str) (flag : Bool) (t : PlDataFrame)
    (h : add_missing_cols df fcols flag = .ok t) :
    ∀ col ∈ t.cols,
      (col.name ∈ fcols → get_flat_col_dtype col.name = .ok col.dtype ∧
        ∀ v ∈ col.vals, castVal col.dtype v = .ok v) ∧
      (flag = true → endsWithStr ("count".data) col.name = true →
        col.vals.map zeroToNullVal = col.vals) := by
  obtain ⟨add, retype, cols2, t2, h1, h2, h3, h4, ht⟩ := amc_ok_inv df fcols flag t h
  have hstep : ∀ col ∈ cols2, col.name ∈ fcols →
      get_flat_col_dtype col.name = .ok col.dtype ∧
      ∀ v ∈ col.vals, castVal col.dtype v = .ok v := by
    intro col hcol hname
    obtain ⟨c0, hc0, hn0, hcase⟩ := retypeCols_mem retype _ cols2 h3 col hcol
    by_cases hmem : col.name ∈ df.columns
    · obtain ⟨dt, hdt, hfind⟩ := dtypesFor_find _ _ col.name h2
        (List.mem_filter.mpr ⟨hname, by simp [hmem]⟩)
      rcases hcase with ⟨hnone, _⟩ | ⟨p, vs, hsome, hcast, hcol2⟩
      · rw [hn0] at hnone
        rw [hnone] at hfind
        exact Option.noConfusion hfind
      · rw [hn0] at hsome
        rw [hsome] at hfind
        injection hfind with hp
        subst hp
        have hdt2 : col.dtype = dt := by rw [hcol2]
        have hvals : col.vals = vs := by rw [hcol2]
        refine ⟨by rw [hdt2]; exact hdt, ?_⟩
        rw [hdt2, hvals]
        exact castVals_ok_fixed dt c0.vals vs hcast
    · have hnone : retype.find? (fun q => decide (q.1 = col.name)) = none := by
        rw [List.find?_eq_none]
        intro p hp
        simp only [decide_eq_true_eq]
        intro hpeq
        have hfst := dtypesFor_fst _ _ h2
        have hpin : p.1 ∈ fcols.filter (fun c => decide (c ∈ df.columns)) := by
          rw [← hfst]
          exact List.mem_map_of_mem _ hp
        have := (List.mem_filter.mp hpin).2
        rw [hpeq] at this
        simp only [decide_eq_true_eq] at this
        exact hmem this
      rcases hcase with ⟨_, hcol2⟩ | ⟨p, vs, hsome, _, _⟩
      · subst hcol2
        rcases List.mem_append.mp hc0 with hdf | hadd
        · exact absurd (List.mem_map_of_mem (·.name) hdf) hmem
        · obtain ⟨p, hpadd, hpmk⟩ := List.mem_map.mp hadd
          have hgp := dtypesFor_mem _ _ h1 p hpadd
          rw [← hpmk]
          refine ⟨hgp, ?_⟩
          intro v hv
          have hvnull := List.eq_of_mem_replicate hv
          subst hvnull
          exact castVal_null _
      · rw [hn0] at hsome
        rw [hnone] at hsome
        exact Option.noConfusion hsome
  cases flag with
  | false =>
    have ht2 : t = t2 := by simpa using ht
    subst ht2
    intro col hcol
    have hcol2 : col ∈ cols2 :=
      selectCols_mem _ _ _ (select_ok_inv _ _ _ h4).2 col hcol
    exact ⟨fun hname => hstep col hcol2 hname, fun hflag => absurd hflag (by simp)⟩
  | true =>
    have ht2 : t = zeroCountsToNull t2 := by simpa using ht
    subst ht2
    intro col hcol
    simp only [zeroCountsToNull] at hcol
    obtain ⟨c2, hc2, hg⟩ := List.mem_map.mp hcol
    have hc2mem : c2 ∈ cols2 :=
      selectCols_mem _ _ _ (select_ok_inv _ _ _ h4).2 c2 hc2
    by_cases hcount : endsWithStr ("count".data) c2.name = true
    · rw [if_pos hcount] at hg
      subst hg
      constructor
      · intro hname
        obtain ⟨hdt, hvals⟩ := hstep c2 hc2mem hname
        refine ⟨hdt, ?_⟩
        intro v hv
        obtain ⟨v2, hv2, rfl⟩ := List.mem_map.mp hv
        exact castVal_zeroToNull _ _ (hvals v2 hv2)
      · intro _ _
        rw [List.map_map]
        apply List.map_congr_left
        intro v _
        exact zeroToNullVal_idem v
    · rw [if_neg hcount] at hg
      subst hg
      exact ⟨fun hname => hstep c2 hc2mem hname, fun _ hcnt => absurd hcnt hcount⟩

/-- C7: normalization is idempotent — if `add_missing_cols` (with the
zero-to-null flag held fixed) maps `df` to `t`, then running it again on `t`
with the same canonical columns returns `t` unchanged. -/
theorem C7_normalize_idempotent (df : PlDataFrame) (fcols : List Str) (flag : Bool)
    (t : PlDataFrame) (h : add_missing_cols df fcols flag = .ok t) :
    add_missing_cols t fcols flag = .ok t := by
  obtain ⟨hcolumns, hnodup⟩ := amc_columns df fcols flag t h
  have hshape := amc_shape df fcols flag t h
  have hdtok := amc_fcols_dtype df fcols flag t h
  have hsub : ∀ c ∈ fcols, c ∈ t.columns := by
    intro c hc
    rw [hcolumns]
    exact List.mem_append_right _ hc
  have hfA : fcols.filter (fun c => decide (c ∉ t.columns)) = [] := by
    rw [List.filter_eq_nil_iff]
    intro c hc
    simp [hsub c hc]
  have hfR : fcols.filter (fun c => decide (c ∈ t.columns)) = fcols := by
    rw [List.filter_eq_self]
    intro c hc
    simp [hsub c hc]
  obtain ⟨retype2, hret2⟩ := dtypesFor_total fcols hdtok
  have htsf : "timestamp".data ∉ fcols := by
    intro hmem
    obtain ⟨dt, hdt⟩ := hdtok _ hmem
    have herr : get_flat_col_dtype ("timestamp".data) =
        .error ("Column timestamp is not a valid flat feature column!".data) := by decide
    rw [herr] at hdt
    exact Except.noConfusion hdt
  have hts : ("timestamp".data ∈ t.columns) ↔ ("timestamp".data ∈ df.columns) := by
    rw [hcolumns]
    unfold keyCols
    by_cases hdf : "timestamp".data ∈ df.columns
    · simp [hdf]
    · simp only [hdf, if_false]
      constructor
      · intro hmem
        rcases List.mem_append.mp hmem with hk | hf
        · rw [List.mem_singleton] at hk
          exact absurd hk (by decide)
        · exact absurd hf htsf
      · intro hmem
        exact hmem.elim
  have hkey : keyCols t = keyCols df := by
    unfold keyCols
    by_cases hdf : "timestamp".data ∈ df.columns
    · rw [if_pos (hts.mpr hdf), if_pos hdf]
    · rw [if_neg (fun hmem => hdf (hts.mp hmem)), if_neg hdf]
  have hfix : retypeCols retype2 t.cols = .ok t.cols := by
    apply retypeCols_fixed
    intro col hcol p hp
    have hpeq : p.1 = col.name := by
      have := List.find?_some hp
      simpa using this
    have hpmem : p ∈ retype2 := List.mem_of_find?_eq_some hp
    have hgf : get_flat_col_dtype p.1 = .ok p.2 := dtypesFor_mem _ _ hret2 p hpmem
    have hnamein : col.name ∈ fcols := by
      rw [← hpeq, ← dtypesFor_fst _ _ hret2]
      exact List.mem_map_of_mem _ hpmem
    obtain ⟨hdt, hvals⟩ := (hshape col hcol).1 hnamein
    rw [hpeq, hdt] at hgf
    injection hgf with hdteq
    refine ⟨hdteq.symm, ?_⟩
    rw [← hdteq]
    exact castVals_fixed _ _ hvals
  have hsel : PlDataFrame.select t (keyCols df ++ fcols) = .ok t := by
    rw [← hcolumns]
    exact select_self t (by rw [hcolumns]; exact hnodup)
  have heta : (⟨t.cols⟩ : PlDataFrame) = t := rfl
  unfold add_missing_cols
  rw [hfA, hfR, hret2, hkey]
  simp only [dtypesFor, addNullCols_nil, hfix, heta, hsel]
  cases flag with
  | false => rfl
  | true =>
    have hzfix : zeroCountsToNull t = t := by
      apply zeroCountsToNull_fixed
      intro col hcol hcnt
      exact (hshape col hcol).2 rfl hcnt
    simp [hzfix]

theorem amc_true_eq (df : PlDataFrame) (fcols : List Str) :
    add_missing_cols df fcols true =
      (add_missing_cols df fcols false).map zeroCountsToNull := by
  unfold add_missing_cols
  cases dtypesFor (fcols.filter (fun c => decide (c ∉ df.columns))) with
  | error e =>
    cases dtypesFor (fcols.filter (fun c => decide (c ∈ df.columns))) with
    | error e2 => rfl
    | ok retype => rfl
  | ok add =>
    cases dtypesFor (fcols.filter (fun c => decide (c ∈ df.columns))) with
    | error e => rfl
    | ok retype =>
      simp only []
      cases retypeCols retype (addNullCols df add).cols with
      | error e => rfl
      | ok cols2 =>
        simp only []
        cases PlDataFrame.select ⟨cols2⟩ (keyCols df ++ fcols) with
        | error e => rfl
        | ok df2 => rfl

theorem forall₂_map_self {α : Type} (f : α → α) (r : α → α → Prop) :
    ∀ l : List α, (∀ v ∈ l, r v (f v)) → List.Forall₂ r l (l.map f) := by
  intro l
  induction l with
  | nil => intro _; exact List.Forall₂.nil
  | cons a as ih =>
    intro h
    exact List.Forall₂.cons (h a (List.mem_cons_self a as))
      (ih (fun v hv => h v (List.mem_cons_of_mem a hv)))

theorem zeroToNullVal_rel (v : PVal) :
    (v = PVal.null → zeroToNullVal v = PVal.null) ∧
    (v.isZeroNum = true → zeroToNullVal v = PVal.null) ∧
    (v ≠ PVal.null → v.isZeroNum = false → zeroToNullVal v = v) := by
  cases v <;>
    simp only [zeroToNullVal, PVal.isZeroNum] <;>
    refine ⟨?_, ?_, ?_⟩ <;>
    intros <;>
    first
      | rfl
      | simp_all

/-- C6: when the zero-to-null flag is set, `add_missing_cols` returns the
flag-off result with a per-column pass applied: every column whose name ends
in `count` has each value 0 replaced by null, with nulls kept null and
non-zero values unchanged, and every column whose name does not end in
`count` keeps its values unchanged (names and dtypes are untouched
throughout). -/
theorem C6_zero_to_null (df : PlDataFrame) (fcols : List Str) (t0 : PlDataFrame)
    (h : add_missing_cols df fcols false = .ok t0) :
    add_missing_cols df fcols true = .ok (zeroCountsToNull t0) ∧
    List.Forall₂ (fun c0 c1 =>
      c1.name = c0.name ∧ c1.dtype = c0.dtype ∧
      (endsWithStr ("count".data) c0.name = true →
        List.Forall₂ (fun v w =>
          (v = PVal.null → w = PVal.null) ∧
          (v.isZeroNum = true → w = PVal.null) ∧
          (v ≠ PVal.null → v.isZeroNum = false → w = v)) c0.vals c1.vals) ∧
      (endsWithStr ("count".data) c0.name = false → c1.vals = c0.vals))
      t0.cols (zeroCountsToNull t0).cols := by
  constructor
  · rw [amc_true_eq, h]
    rfl
  · simp only [zeroCountsToNull]
    apply forall₂_map_self
    intro c _
    by_cases hcnt : endsWithStr ("count".data) c.name = true
    · rw [if_pos hcnt]
      refine ⟨rfl, rfl, fun _ => ?_, fun hfalse => absurd hcnt (by simp [hfalse])⟩
      apply forall₂_map_self
      intro v _
      exact zeroToNullVal_rel v
    · rw [if_neg hcnt]
      exact ⟨rfl, rfl, fun htrue => absurd htrue hcnt, fun _ => rfl⟩

theorem C6_zero_to_null_witness :
    add_missing_cols
      ⟨[⟨"patient_id".data, .UInt32, [.u32 1, .u32 2]⟩,
        ⟨"A/B/count".data, .UInt32, [.u32 0, .u32 3]⟩]⟩
      ["A/B/count".data] true =
    .ok ⟨[⟨"patient_id".data, .UInt32, [.u32 1, .u32 2]⟩,
          ⟨"A/B/count".data, .UInt32, [.null, .u32 3]⟩]⟩ := by
  have h := (C6_zero_to_null
    ⟨[⟨"patient_id".data, .UInt32, [.u32 1, .u32 2]⟩,
      ⟨"A/B/count".data, .UInt32, [.u32 0, .u32 3]⟩]⟩
    ["A/B/count".data]
    ⟨[⟨"patient_id".data, .UInt32, [.u32 1, .u32 2]⟩,
      ⟨"A/B/count".data, .UInt32, [.u32 0, .u32 3]⟩]⟩ (by decide)).1
  have h2 : zeroCountsToNull
      ⟨[⟨"patient_id".data, .UInt32, [.u32 1, .u32 2]⟩,
        ⟨"A/B/count".data, .UInt32, [.u32 0, .u32 3]⟩]⟩ =
      ⟨[⟨"patient_id".data, .UInt32, [.u32 1, .u32 2]⟩,
        ⟨"A/B/count".data, .UInt32, [.null, .u32 3]⟩]⟩ := by decide
  rw [h2] at h
  exact h

theorem C7_normalize_idempotent_witness :
    add_missing_cols
      ⟨[⟨"patient_id".data, .UInt32, [.u32 1, .u32 2]⟩,
        ⟨"static/A/first".data, .Float32, [.null, .null]⟩,
        ⟨"static/B/first".data, .Float32, [.f32 0, .f32 7]⟩]⟩
      ["static/A/first".data, "static/B/first".data] false =
    .ok ⟨[⟨"patient_id".data, .UInt32, [.u32 1, .u32 2]⟩,
          ⟨"static/A/first".data, .Float32, [.null, .null]⟩,
          ⟨"static/B/first".data, .Float32, [.f32 0, .f32 7]⟩]⟩ :=
  C7_normalize_idempotent
    ⟨[⟨"patient_id".data, .UInt32, [.u32 1, .u32 2]⟩,
      ⟨"junk".data, .Int64, [.i64 5, .i64 6]⟩,
      ⟨"static/B/first".data, .Int64, [.i64 0, .i64 7]⟩]⟩
    ["static/A/first".data, "static/B/first".data] false
    ⟨[⟨"patient_id".data, .UInt32, [.u32 1, .u32 2]⟩,
      ⟨"static/A/first".data, .Float32, [.null, .null]⟩,
      ⟨"static/B/first".data, .Float32, [.f32 0, .f32 7]⟩]⟩
    (by decide)

/-! ## C3: normalization shape -/

/-- C3 counterexample: a frame that carries both a `subject_id` and a
`patient_id` column.  The claim says the key columns of the normalized output
are `subject_id` (plus `timestamp` when present), but `add_missing_cols` keys
on `patient_id`: the output columns are `patient_id ++ canonical`, and the
`subject_id` column is dropped. -/
theorem C3_counterexample :
    (add_missing_cols
        ⟨[⟨"patient_id".data, .UInt32, [.u32 1]⟩,
          ⟨"subject_id".data, .UInt32, [.u32 7]⟩]⟩
        ["static/A/first".data] false).map PlDataFrame.columns =
      .ok [ "patient_id".data, "static/A/first".data ] ∧
    (add_missing_cols
        ⟨[⟨"patient_id".data, .UInt32, [.u32 1]⟩,
          ⟨"subject_id".data, .UInt32, [.u32 7]⟩]⟩
        ["static/A/first".data] false).map PlDataFrame.columns ≠
      .ok [ "subject_id".data, "static/A/first".data ] := by
  exact ⟨by decide, by decide⟩

/-- C3 (amended): with the zero-to-null flag off, a successful
`add_missing_cols` returns a frame whose columns are exactly the key columns
followed by the canonical columns in order — where the key columns are
`[patient_id, timestamp]` when the input carries a `timestamp` column and
`[patient_id]` otherwise (`patient_id`, not the claim's `subject_id`) — with
every canonical column absent from the input added as an all-null column of
its canonical dtype, and every input column outside the canonical set and the
key columns dropped. -/
theorem C3_normalize_shape (df : PlDataFrame) (fcols : List Str) (t : PlDataFrame)
    (h : add_missing_cols df fcols false = .ok t) :
    t.columns = keyCols df ++ fcols ∧
    (∀ c ∈ fcols, c ∉ df.columns →
      ∃ dt, get_flat_col_dtype c = .ok dt ∧
        t.getCol? c = some ⟨c, dt, List.replicate df.height PVal.null⟩) := by
  obtain ⟨add, retype, cols2, t2, h1, h2, h3, h4, ht⟩ := amc_ok_inv df fcols false t h
  have ht2 : t = t2 := by simpa using ht
  subst ht2
  refine ⟨select_columns _ _ _ h4, ?_⟩
  intro c hc hnotin
  obtain ⟨dt, hdt, hfindadd⟩ := dtypesFor_find _ _ c h1
    (List.mem_filter.mpr ⟨hc, by simp [hnotin]⟩)
  refine ⟨dt, hdt, ?_⟩
  have hsel := (select_ok_inv _ _ _ h4).2
  have hget : t.getCol? c = PlDataFrame.getCol? ⟨cols2⟩ c :=
    selectCols_getCol? _ _ _ hsel c (List.mem_append_right _ hc)
  rw [hget]
  have hnone : retype.find? (fun q => decide (q.1 = c)) = none := by
    rw [List.find?_eq_none]
    intro p hp
    simp only [decide_eq_true_eq]
    intro hpeq
    have hpin : p.1 ∈ fcols.filter (fun c => decide (c ∈ df.columns)) := by
      rw [← dtypesFor_fst _ _ h2]
      exact List.mem_map_of_mem _ hp
    have hmem := (List.mem_filter.mp hpin).2
    rw [hpeq] at hmem
    simp only [decide_eq_true_eq] at hmem
    exact hnotin hmem
  have huntouched := retypeCols_find_untouched retype _ cols2 h3 c hnone
  simp only [PlDataFrame.getCol?]
  rw [huntouched]
  show (df.cols ++ add.map
      (fun p => (⟨p.1, p.2, List.replicate df.height PVal.null⟩ : PlColumn))).find?
      (fun col => decide (col.name = c)) =
    some ⟨c, dt, List.replicate df.height PVal.null⟩
  rw [List.find?_append]
  have hdfnone : df.cols.find? (fun col => decide (col.name = c)) = none := by
    rw [List.find?_eq_none]
    intro col hcol
    simp only [decide_eq_true_eq]
    intro hceq
    exact hnotin (hceq ▸ List.mem_map_of_mem (·.name) hcol)
  rw [hdfnone, List.find?_map, Option.none_or]
  rw [show ((fun col : PlColumn => decide (col.name = c)) ∘
      (fun p : Str × PlDtype =>
        (⟨p.1, p.2, List.replicate df.height PVal.null⟩ : PlColumn))) =
    (fun p : Str × PlDtype => decide (p.1 = c)) from rfl]
  rw [hfindadd]
  rfl

theorem C3_normalize_shape_witness :
    PlDataFrame.columns
      ⟨[⟨"patient_id".data, .UInt32, [.u32 1]⟩,
        ⟨"static/A/first".data, .Float32, [.null]⟩]⟩ =
      ["patient_id".data] ++ ["static/A/first".data] ∧
    PlDataFrame.getCol?
      ⟨[⟨"patient_id".data, .UInt32, [.u32 1]⟩,
        ⟨"static/A/first".data, .Float32, [.null]⟩]⟩ ("static/A/first".data) =
      some ⟨"static/A/first".data, .Float32, [.null]⟩ := by
  have h := C3_normalize_shape
    ⟨[⟨"patient_id".data, .UInt32, [.u32 1]⟩,
      ⟨"subject_id".data, .UInt32, [.u32 7]⟩]⟩
    ["static/A/first".data]
    ⟨[⟨"patient_id".data, .UInt32, [.u32 1]⟩,
      ⟨"static/A/first".data, .Float32, [.null]⟩]⟩ (by decide)
  obtain ⟨hcols, hnull⟩ := h
  obtain ⟨dt, hdt, hget⟩ := hnull ("static/A/first".data) (by decide) (by decide)
  have hdt2 : dt = PlDtype.Float32 := by
    have : get_flat_col_dtype ("static/A/first".data) = .ok PlDtype.Float32 := by decide
    rw [this] at hdt
    injection hdt with h5
    exact h5.symm
  subst hdt2
  refine ⟨by simpa [keyCols] using hcols, by simpa using hget⟩

theorem C8_static_columns_witness :
    get_static_feature_cols
      [⟨"A".data, none, some 1⟩,
       ⟨"A".data, some ("2021-01-01".data), none⟩,
       ⟨"B".data, some ("2021-01-01".data), some 2⟩,
       ⟨"B".data, some ("2021-01-02".data), some 2⟩,
       ⟨"C".data, some ("2021-01-03".data), none⟩,
       ⟨"C".data, some ("2021-01-04".data), none⟩,
       ⟨"C".data, none, some 3⟩] =
      ["static/A/first".data, "static/A/present".data,
       "static/C/first".data, "static/C/present".data] :=
  (C8_static_columns []).2.2.2
